import Mathlib

/-!
Shallow embedding of the BASED task-tracking core:

* `src/BASED/repository/task.py` — task records, dependency-edge store
  operations (`add_task_depends`, `del_tasks_depends`,
  `get_all_task_dependencies`, `update_task_start_finish_dates`);
* `src/BASED/views/dashboard/helpers.py` — the warning engine
  (`get_warnings_list`);
* `src/BASED/views/dashboard/views.py` — the dashboard progress metric
  (`get_dashboard_tasks`).

Calendar dates are modelled as integers (proleptic day ordinals, as in
Python's `date.toordinal`); subtracting two dates gives the signed day
count, exactly as `(a - b).days` does for `datetime.date` values.
Python's `date - timedelta(days=x)` keeps only the whole-day part of the
timedelta (`date.__sub__` uses `timedelta(-other.days)`, and
`timedelta(days=x).days` is the floor of `x`), so it is modelled as
subtraction of `⌊x⌋`.  The process-wide configuration constant
`TIME_RESERVE_COEF` (defined in `BASED/conf.py`, outside the sources) is
threaded through as an explicit rational parameter `coef`; the float
arithmetic of the source is modelled as exact rational arithmetic.
A Python exception (a `TypeError` on `None` date arithmetic, a `KeyError`
or `ZeroDivisionError` in the dashboard view) is modelled as `none` of an
`Option` result.
-/

namespace BASED

/-- Task status, from `TaskStatusEnum` in `src/BASED/repository/task.py`. -/
inductive TaskStatusEnum where
  | to_do
  | in_progress
  | done
deriving DecidableEq, Repr

/-- Relation category, from `DependencyTypeEnum` in
`src/BASED/repository/task.py`. -/
inductive DependencyTypeEnum where
  | depends_of
  | dependent_for
  | self
deriving DecidableEq, Repr

/-- Warning tags used by the dashboard warning engine (the
`WarningTypeEnum` values that `src/BASED/views/dashboard/helpers.py`
emits). -/
inductive WarningTypeEnum where
  | start_soft
  | start_hard
  | finish_soft
  | finish_hard
  | late_deadline
deriving DecidableEq, Repr

/-- A single warning record (`WarningModel(type=..., task_id=...)`). -/
structure WarningModel where
  type : WarningTypeEnum
  task_id : ℤ
deriving DecidableEq, Repr

/-- A task record, from the pydantic `Task` model in
`src/BASED/repository/task.py`.  Dates are day ordinals. -/
structure Task where
  id : ℤ
  responsible_user_id : ℤ
  status : TaskStatusEnum
  title : Option String
  description : Option String
  deadline : ℤ
  days_for_completion : ℤ
  actual_start_date : Option ℤ
  actual_finish_date : Option ℤ
  actual_completion_days : Option ℤ
  is_archived : Bool
  created_timestamp : ℤ
deriving DecidableEq, Repr

/-- Python's `d - timedelta(days=x)` for a `date` `d`: only the whole-day
part of the timedelta takes effect, so the result is `d - ⌊x⌋`. -/
def dateSubDays (d : ℤ) (x : ℚ) : ℤ :=
  d - ⌊x⌋

/-- The `match task.status` block of `get_warnings_list` in
`src/BASED/views/dashboard/helpers.py`: the warnings accumulated by the
status-conditioned branches, before the final `late_deadline` check.
In the `in_progress` branch the source computes
`current_date - task.actual_start_date`; when `actual_start_date` is
`None` this raises a `TypeError`, modelled by the `none` result. -/
def status_warnings (coef : ℚ) (current_date : ℤ) (task : Task) :
    Option (List WarningModel) :=
  match task.status with
  | .to_do =>
      if current_date ≥ dateSubDays task.deadline task.days_for_completion then
        some [⟨.start_hard, task.id⟩]
      else if current_date ≥
          dateSubDays task.deadline (task.days_for_completion * coef) then
        some [⟨.start_soft, task.id⟩]
      else
        some []
  | .in_progress =>
      match task.actual_start_date with
      | none => none
      | some start_date =>
          let days_in_work : ℤ := current_date - start_date
          let days_to_deadline0 : ℤ := task.days_for_completion - days_in_work
          let days_to_deadline : ℤ :=
            if days_to_deadline0 < 0 then 0 else days_to_deadline0
          if current_date ≥ dateSubDays task.deadline days_to_deadline then
            some [⟨.finish_hard, task.id⟩]
          else if current_date ≥
              dateSubDays task.deadline (days_to_deadline * coef) then
            some [⟨.finish_soft, task.id⟩]
          else
            some []
  | .done => some []

/-- The warning engine `get_warnings_list` of
`src/BASED/views/dashboard/helpers.py`, with the evaluation date
(`date.today()` in the source) and the configuration constant
`TIME_RESERVE_COEF` made explicit parameters: the status-conditioned
warnings followed by the unconditional `late_deadline` check. -/
def get_warnings_list (coef : ℚ) (current_date : ℤ) (task : Task) :
    Option (List WarningModel) :=
  match status_warnings coef current_date task with
  | none => none
  | some warnings =>
      if current_date > task.deadline then
        some (warnings ++ [⟨.late_deadline, task.id⟩])
      else
        some warnings

/-- A warning type is status-conditioned when it is one of the four
start/finish warnings (everything except `late_deadline`). -/
def statusConditioned : WarningTypeEnum → Bool
  | .start_soft => true
  | .start_hard => true
  | .finish_soft => true
  | .finish_hard => true
  | .late_deadline => false

/-- `TaskRepository.add_task_depends` of `src/BASED/repository/task.py`:
`INSERT INTO "task_depends" ... ON CONFLICT (task_id, depends_task_id)
DO NOTHING`.  The `task_depends` table has a uniqueness constraint on the
pair, so it is modelled as a finite set of ordered pairs
`(task_id, depends_task_id)`; the conflict-tolerant insert is set
insertion. -/
def add_task_depends (edges : Finset (ℤ × ℤ)) (id_ depends_id : ℤ) :
    Finset (ℤ × ℤ) :=
  insert (id_, depends_id) edges

/-- `TaskRepository.del_tasks_depends` of `src/BASED/repository/task.py`:
`DELETE ... WHERE "task_id" = $1 AND "depends_task_id" = $2 RETURNING
TRUE`, then `return False` when no row came back and `True` otherwise.
Returns the flag together with the resulting edge set. -/
def del_tasks_depends (edges : Finset (ℤ × ℤ)) (id_ depends_id : ℤ) :
    Bool × Finset (ℤ × ℤ) :=
  (decide ((id_, depends_id) ∈ edges), edges.erase (id_, depends_id))

/-- One output row of `get_all_task_dependencies`
(the pydantic `TaskWithDependency` model). -/
structure TaskWithDependency where
  id : ℤ
  dependency_type : DependencyTypeEnum
  responsible_user_id : ℤ
  title : Option String
  deadline : ℤ
deriving DecidableEq, Repr

/-- Builds one `TaskWithDependency` row from a task row, as each branch of
the SQL union does. -/
def mkDependencyRow (dep_type : DependencyTypeEnum) (t : Task) :
    TaskWithDependency :=
  ⟨t.id, dep_type, t.responsible_user_id, t.title, t.deadline⟩

/-- `TaskRepository.get_all_task_dependencies` of
`src/BASED/repository/task.py`.  The SQL query unions three selects over
the database state (`tasks` is the `task` table, `edges` the
`task_depends` table):

* tasks joined on `task_depends.task_id = task.id` with
  `depends_task_id = $1`, tagged `depends_of`;
* tasks joined on `task_depends.depends_task_id = task.id` with
  `task_id = $1`, tagged `dependent_for`;
* the task with `id = $1` itself, tagged `self`;

`UNION` removes exact duplicate rows, and `ORDER BY "deadline"` sorts the
result by deadline ascending. -/
def get_all_task_dependencies (tasks : List Task) (edges : Finset (ℤ × ℤ))
    (task_id : ℤ) : List TaskWithDependency :=
  let depends_of_rows :=
    (tasks.filter (fun t => (t.id, task_id) ∈ edges)).map
      (mkDependencyRow .depends_of)
  let dependent_for_rows :=
    (tasks.filter (fun t => (task_id, t.id) ∈ edges)).map
      (mkDependencyRow .dependent_for)
  let self_rows :=
    (tasks.filter (fun t => t.id = task_id)).map (mkDependencyRow .self)
  ((depends_of_rows ++ dependent_for_rows ++ self_rows).dedup).mergeSort
    (fun r₁ r₂ => r₁.deadline ≤ r₂.deadline)

/-- `TaskRepository.update_task_start_finish_dates` of
`src/BASED/repository/task.py`: computes
`actual_completion_days = (new_finish_date - new_start_date).days + 1`
when both dates are given and `None` otherwise, then updates the row with
`id = task_id`, returning whether a row was found.  The table is modelled
as a list of task rows; the SQL `UPDATE ... WHERE "id" = $1` rewrites
every matching row. -/
def update_task_start_finish_dates (store : List Task) (task_id : ℤ)
    (new_start_date new_finish_date : Option ℤ) : Bool × List Task :=
  let actual_completion_days : Option ℤ :=
    match new_start_date, new_finish_date with
    | some s, some f => some (f - s + 1)
    | _, _ => none
  (store.any (fun t => t.id = task_id),
   store.map (fun t =>
     if t.id = task_id then
       { t with
         actual_start_date := new_start_date,
         actual_finish_date := new_finish_date,
         actual_completion_days := actual_completion_days }
     else t))

/-- Round a rational to the nearest integer, ties to even — the mantissa
rounding step of IEEE-754 round-to-nearest-even. -/
def rne (m : ℚ) : ℤ :=
  if Int.fract m < 1/2 then ⌊m⌋
  else if 1/2 < Int.fract m then ⌊m⌋ + 1
  else if ⌊m⌋ % 2 = 0 then ⌊m⌋ else ⌊m⌋ + 1

/-- Exact-rational model of rounding a positive real number to the
nearest IEEE-754 binary64 value (round-to-nearest, ties-to-even), valid
below the overflow threshold: the value is scaled to its 53-bit mantissa
using the quantum `2 ^ (e - 52)` where `e` is the binary exponent
(clamped at `-1022`, which makes values below the normal range round on
the subnormal quantum `2 ^ (-1074)`, as binary64 does), the mantissa is
rounded to nearest-even, and the result is scaled back.  Non-positive
inputs, never produced by the modelled pipeline, map to zero. -/
def round64 (x : ℚ) : ℚ :=
  if x ≤ 0 then 0
  else
    rne (x / 2 ^ (max (Int.log 2 x) (-1022) - 52)) *
      2 ^ (max (Int.log 2 x) (-1022) - 52)

/-- The progress metric of `get_dashboard_tasks` in
`src/BASED/views/dashboard/views.py`:
`progress = int(len(statuses[TaskStatusEnum.done]) / len(tasks) * 100)`.
The `statuses` dict maps each status to the tasks carrying it, so it has
the key `done` exactly when some task is `done`; when no task is `done`
the lookup raises a `KeyError` (and on an empty task list the division
raises `ZeroDivisionError`), modelled by `none`.  The arithmetic is
Python binary64 float arithmetic, modelled exactly: `done / total` is
CPython's correctly rounded int-true-division (`round64` of the exact
quotient), `* 100` is a correctly rounded float product (100 being
exactly representable), and `int` truncates the non-negative result
toward zero (`⌊·⌋₊`). -/
def dashboard_progress (tasks : List Task) : Option ℕ :=
  if tasks.any (fun t => t.status = TaskStatusEnum.done) then
    some ⌊round64 (round64
      ((tasks.countP (fun t => t.status = TaskStatusEnum.done) : ℚ) /
        (tasks.length : ℚ)) * 100)⌋₊
  else
    none

/-! ### Shared lemmas about the warning engine -/

/-- A concrete task row used to instantiate universally quantified
theorems on explicit inputs. -/
def sampleTask (st : TaskStatusEnum) (deadline days_for_completion : ℤ)
    (actual_start_date : Option ℤ) : Task :=
  ⟨1, 7, st, none, none, deadline, days_for_completion, actual_start_date,
    none, none, false, 0⟩

/-- Python's whole-day date subtraction against a fractional day count
agrees with the exact rational threshold: an (integer) date is at or
past `deadline - ⌊x⌋` exactly when it is at or past `deadline - x`. -/
theorem dateSubDays_le_iff (deadline today : ℤ) (x : ℚ) :
    dateSubDays deadline x ≤ today ↔
      (deadline : ℚ) - x ≤ (today : ℚ) := by
  unfold dateSubDays
  rw [show deadline - ⌊x⌋ ≤ today ↔ deadline - today ≤ ⌊x⌋ by omega,
    Int.le_floor]
  push_cast
  constructor <;> intro h <;> linarith

/-- The status-conditioned branch for a `to_do` task, in closed form. -/
theorem status_warnings_to_do (coef : ℚ) (current_date : ℤ) (task : Task)
    (hst : task.status = .to_do) :
    status_warnings coef current_date task =
      some (if current_date ≥
              dateSubDays task.deadline task.days_for_completion then
              [⟨.start_hard, task.id⟩]
            else if current_date ≥
              dateSubDays task.deadline (task.days_for_completion * coef) then
              [⟨.start_soft, task.id⟩]
            else []) := by
  unfold status_warnings
  rw [hst]
  split_ifs <;> simp_all

/-- The status-conditioned branch for an `in_progress` task with a known
actual start date, in closed form. -/
theorem status_warnings_in_progress (coef : ℚ) (current_date : ℤ)
    (task : Task) (start_date : ℤ) (hst : task.status = .in_progress)
    (hsd : task.actual_start_date = some start_date) :
    status_warnings coef current_date task =
      some (if current_date ≥ dateSubDays task.deadline
              ((max (task.days_for_completion - (current_date - start_date))
                0 : ℤ) : ℚ)
            then [⟨.finish_hard, task.id⟩]
            else if current_date ≥ dateSubDays task.deadline
              (((max (task.days_for_completion - (current_date - start_date))
                0 : ℤ) : ℚ) * coef)
            then [⟨.finish_soft, task.id⟩]
            else []) := by
  unfold status_warnings
  rw [hst, hsd]
  have hmax :
      (if task.days_for_completion - (current_date - start_date) < 0 then 0
       else task.days_for_completion - (current_date - start_date)) =
        max (task.days_for_completion - (current_date - start_date)) 0 := by
    omega
  simp only [hmax]
  split_ifs <;> simp_all

/-- The status-conditioned branch for a `done` task is empty. -/
theorem status_warnings_done (coef : ℚ) (current_date : ℤ) (task : Task)
    (hst : task.status = .done) :
    status_warnings coef current_date task = some [] := by
  unfold status_warnings
  rw [hst]

/-- `get_warnings_list` appends the `late_deadline` warning (when due) to
whatever the status-conditioned branch produced. -/
theorem get_warnings_list_eq_append (coef : ℚ) (current_date : ℤ)
    (task : Task) (sw : List WarningModel)
    (h : status_warnings coef current_date task = some sw) :
    get_warnings_list coef current_date task =
      some (sw ++ if current_date > task.deadline then
              [⟨.late_deadline, task.id⟩] else []) := by
  unfold get_warnings_list
  rw [h]
  split_ifs <;> simp

/-! ### Claim theorems -/

/-- C9: for every task with status `in_progress` whose
`actual_start_date` is unset, the warning computation does not return a
warning list: it fails (the source raises a `TypeError` on
`current_date - task.actual_start_date`), surfacing the precondition
violation to the caller instead of silently defaulting the missing
date. -/
theorem get_warnings_list_missing_start_fails (coef : ℚ)
    (current_date : ℤ) (task : Task) (hst : task.status = .in_progress)
    (hsd : task.actual_start_date = none) :
    get_warnings_list coef current_date task = none := by
  unfold get_warnings_list status_warnings
  rw [hst, hsd]

/-- Witness for C9 at a concrete `in_progress` task with no actual start
date. -/
theorem get_warnings_list_missing_start_fails_witness :
    get_warnings_list (1/2) 16 (sampleTask .in_progress 20 5 none) =
      none :=
  get_warnings_list_missing_start_fails (1/2) 16
    (sampleTask .in_progress 20 5 none) rfl rfl

/-- C2: for every task (whose branch precondition holds, i.e. an
`in_progress` task has its actual start date) and every evaluation date,
the warning computation emits `late_deadline` iff `today > deadline`,
regardless of the task's status, and the warning is additive: the result
is the status-conditioned warnings with the `late_deadline` warning
appended exactly when due. -/
theorem late_deadline_iff_additive (coef : ℚ) (current_date : ℤ)
    (task : Task)
    (hwf : task.status = .in_progress → task.actual_start_date ≠ none) :
    ∃ sw : List WarningModel,
      (∀ w ∈ sw, statusConditioned w.type = true) ∧
      get_warnings_list coef current_date task =
        some (sw ++ if current_date > task.deadline then
                [⟨.late_deadline, task.id⟩] else []) ∧
      ∀ ws, get_warnings_list coef current_date task = some ws →
        ((⟨.late_deadline, task.id⟩ : WarningModel) ∈ ws ↔
          current_date > task.deadline) := by
  have hsw : ∃ sw, status_warnings coef current_date task = some sw ∧
      ∀ w ∈ sw, statusConditioned w.type = true := by
    cases hst : task.status with
    | to_do =>
        refine ⟨_, status_warnings_to_do coef current_date task hst, ?_⟩
        split_ifs <;> intro w hw <;> simp_all [statusConditioned]
    | in_progress =>
        obtain ⟨s, hs⟩ := Option.ne_none_iff_exists'.mp (hwf hst)
        refine ⟨_,
          status_warnings_in_progress coef current_date task s hst hs, ?_⟩
        split_ifs <;> intro w hw <;> simp_all [statusConditioned]
    | done =>
        exact ⟨[], status_warnings_done coef current_date task hst,
          by simp⟩
  obtain ⟨sw, hsw_eq, hsw_all⟩ := hsw
  refine ⟨sw, hsw_all,
    get_warnings_list_eq_append coef current_date task sw hsw_eq, ?_⟩
  intro ws hws
  rw [get_warnings_list_eq_append coef current_date task sw hsw_eq]
    at hws
  obtain rfl : sw ++ (if current_date > task.deadline then
      [(⟨.late_deadline, task.id⟩ : WarningModel)] else []) = ws := by
    injection hws
  constructor
  · intro hmem
    rcases List.mem_append.mp hmem with h1 | h2
    · have := hsw_all _ h1
      simp [statusConditioned] at this
    · by_contra hlt
      rw [if_neg hlt] at h2
      simp at h2
  · intro hlt
    exact List.mem_append.mpr (Or.inr (by rw [if_pos hlt]; simp))

/-- Witness for C2 at a concrete overdue `to_do` task, also exhibiting
the additivity: the `late_deadline` warning co-occurs with `start_hard`
in the same result list. -/
theorem late_deadline_iff_additive_witness :
    (∃ sw : List WarningModel,
      (∀ w ∈ sw, statusConditioned w.type = true) ∧
      get_warnings_list (1/2) 12 (sampleTask .to_do 10 5 none) =
        some (sw ++ if (12 : ℤ) > (sampleTask .to_do 10 5 none).deadline
                then [⟨.late_deadline, (sampleTask .to_do 10 5 none).id⟩]
                else []) ∧
      ∀ ws, get_warnings_list (1/2) 12 (sampleTask .to_do 10 5 none) =
          some ws →
        ((⟨.late_deadline, (sampleTask .to_do 10 5 none).id⟩ :
            WarningModel) ∈ ws ↔
          (12 : ℤ) > (sampleTask .to_do 10 5 none).deadline)) ∧
    get_warnings_list (1/2) 12 (sampleTask .to_do 10 5 none) =
      some [⟨.start_hard, 1⟩, ⟨.late_deadline, 1⟩] :=
  ⟨late_deadline_iff_additive (1/2) 12 (sampleTask .to_do 10 5 none)
    (fun h => absurd h (by decide)), by decide⟩

/-- C3: for every `to_do` task with positive `days_for_completion` and a
reserve coefficient in (0, 1], `start_hard` is emitted exactly when
`today ≥ deadline − days_for_completion`; `start_soft` is emitted exactly
when the `start_hard` condition is false and
`today ≥ deadline − days_for_completion × coef` (with the threshold in
exact rational arithmetic); at most one of the two is emitted, hard
taking priority. -/
theorem start_warnings_characterization (coef : ℚ) (current_date : ℤ)
    (task : Task) (hst : task.status = .to_do)
    (hd : 0 < task.days_for_completion) (hc0 : 0 < coef)
    (hc1 : coef ≤ 1) :
    ∃ ws, get_warnings_list coef current_date task = some ws ∧
      ((⟨.start_hard, task.id⟩ : WarningModel) ∈ ws ↔
        current_date ≥ task.deadline - task.days_for_completion) ∧
      ((⟨.start_soft, task.id⟩ : WarningModel) ∈ ws ↔
        (¬ current_date ≥ task.deadline - task.days_for_completion ∧
         (current_date : ℚ) ≥ (task.deadline : ℚ) -
           (task.days_for_completion : ℚ) * coef)) ∧
      ¬((⟨.start_hard, task.id⟩ : WarningModel) ∈ ws ∧
        (⟨.start_soft, task.id⟩ : WarningModel) ∈ ws) := by
  have hhard : dateSubDays task.deadline (task.days_for_completion : ℚ) =
      task.deadline - task.days_for_completion := by
    unfold dateSubDays
    rw [Int.floor_intCast]
  have hsoft : (current_date ≥
      dateSubDays task.deadline ((task.days_for_completion : ℚ) * coef)) ↔
      (current_date : ℚ) ≥ (task.deadline : ℚ) -
        (task.days_for_completion : ℚ) * coef := by
    rw [ge_iff_le, dateSubDays_le_iff, ge_iff_le]
  refine ⟨_, get_warnings_list_eq_append coef current_date task _
    (status_warnings_to_do coef current_date task hst), ?_, ?_, ?_⟩ <;>
    rw [hhard] <;> split_ifs with h1 h2 <;>
    simp_all [ge_iff_le]

/-- Witness for C3: the spec's example task A (`to_do`, deadline day 30,
`days_for_completion` 10, coefficient 1/2) at today = day 20, where
`start_hard` fires. -/
theorem start_warnings_characterization_witness :
    (∃ ws, get_warnings_list (1/2) 20 (sampleTask .to_do 30 10 none) =
        some ws ∧
      ((⟨.start_hard, (sampleTask .to_do 30 10 none).id⟩ :
          WarningModel) ∈ ws ↔
        (20 : ℤ) ≥ (sampleTask .to_do 30 10 none).deadline -
          (sampleTask .to_do 30 10 none).days_for_completion) ∧
      ((⟨.start_soft, (sampleTask .to_do 30 10 none).id⟩ :
          WarningModel) ∈ ws ↔
        (¬ (20 : ℤ) ≥ (sampleTask .to_do 30 10 none).deadline -
            (sampleTask .to_do 30 10 none).days_for_completion ∧
         ((20 : ℤ) : ℚ) ≥
           (((sampleTask .to_do 30 10 none).deadline : ℤ) : ℚ) -
           (((sampleTask .to_do 30 10 none).days_for_completion : ℤ) : ℚ) *
             (1/2))) ∧
      ¬((⟨.start_hard, (sampleTask .to_do 30 10 none).id⟩ :
          WarningModel) ∈ ws ∧
        (⟨.start_soft, (sampleTask .to_do 30 10 none).id⟩ :
          WarningModel) ∈ ws)) ∧
    get_warnings_list (1/2) 20 (sampleTask .to_do 30 10 none) =
      some [⟨.start_hard, 1⟩] :=
  ⟨start_warnings_characterization (1/2) 20 (sampleTask .to_do 30 10 none)
    rfl (by decide) (by norm_num) (by norm_num), by decide⟩

/-- C4: for every `in_progress` task with its actual start date set,
with `days_in_work = today − actual_start_date` (not clamped) and
`days_to_deadline = max (days_for_completion − days_in_work) 0`,
`finish_hard` is emitted exactly when
`today ≥ deadline − days_to_deadline`, and `finish_soft` exactly when the
hard condition is false and
`today ≥ deadline − days_to_deadline × coef` (threshold in exact rational
arithmetic). -/
theorem finish_warnings_characterization (coef : ℚ) (current_date : ℤ)
    (task : Task) (start_date : ℤ) (hst : task.status = .in_progress)
    (hsd : task.actual_start_date = some start_date) :
    ∃ ws, get_warnings_list coef current_date task = some ws ∧
      ((⟨.finish_hard, task.id⟩ : WarningModel) ∈ ws ↔
        current_date ≥ task.deadline -
          max (task.days_for_completion - (current_date - start_date)) 0) ∧
      ((⟨.finish_soft, task.id⟩ : WarningModel) ∈ ws ↔
        (¬ current_date ≥ task.deadline -
            max (task.days_for_completion - (current_date - start_date)) 0 ∧
         (current_date : ℚ) ≥ (task.deadline : ℚ) -
           ((max (task.days_for_completion - (current_date - start_date)) 0 :
              ℤ) : ℚ) * coef)) ∧
      ¬((⟨.finish_hard, task.id⟩ : WarningModel) ∈ ws ∧
        (⟨.finish_soft, task.id⟩ : WarningModel) ∈ ws) := by
  have hhard : dateSubDays task.deadline
      ((max (task.days_for_completion - (current_date - start_date)) 0 :
        ℤ) : ℚ) =
      task.deadline -
        max (task.days_for_completion - (current_date - start_date)) 0 := by
    unfold dateSubDays
    rw [Int.floor_intCast]
  have hsoft : (current_date ≥ dateSubDays task.deadline
      (((max (task.days_for_completion - (current_date - start_date)) 0 :
        ℤ) : ℚ) * coef)) ↔
      (current_date : ℚ) ≥ (task.deadline : ℚ) -
        ((max (task.days_for_completion - (current_date - start_date)) 0 :
          ℤ) : ℚ) * coef := by
    rw [ge_iff_le, dateSubDays_le_iff, ge_iff_le]
  refine ⟨_, get_warnings_list_eq_append coef current_date task _
    (status_warnings_in_progress coef current_date task start_date hst
      hsd), ?_, ?_, ?_⟩ <;>
    rw [hhard] <;> split_ifs with h1 h2 <;>
    simp_all [ge_iff_le]

/-- Witness for C4: the spec's example task B (`in_progress`, actual
start day 10, `days_for_completion` 5, deadline day 20) at today =
day 16, where no finish warning is emitted (the result list is empty). -/
theorem finish_warnings_characterization_witness :
    (∃ ws, get_warnings_list (1/2) 16
        (sampleTask .in_progress 20 5 (some 10)) = some ws ∧
      ((⟨.finish_hard, (sampleTask .in_progress 20 5 (some 10)).id⟩ :
          WarningModel) ∈ ws ↔
        (16 : ℤ) ≥ (sampleTask .in_progress 20 5 (some 10)).deadline -
          max ((sampleTask .in_progress 20 5 (some 10)).days_for_completion
            - ((16 : ℤ) - 10)) 0) ∧
      ((⟨.finish_soft, (sampleTask .in_progress 20 5 (some 10)).id⟩ :
          WarningModel) ∈ ws ↔
        (¬ (16 : ℤ) ≥ (sampleTask .in_progress 20 5 (some 10)).deadline -
            max ((sampleTask .in_progress 20 5
              (some 10)).days_for_completion - ((16 : ℤ) - 10)) 0 ∧
         ((16 : ℤ) : ℚ) ≥
           (((sampleTask .in_progress 20 5 (some 10)).deadline : ℤ) : ℚ) -
           ((max ((sampleTask .in_progress 20 5
              (some 10)).days_for_completion - ((16 : ℤ) - 10)) 0 : ℤ) : ℚ)
             * (1/2))) ∧
      ¬((⟨.finish_hard, (sampleTask .in_progress 20 5 (some 10)).id⟩ :
          WarningModel) ∈ ws ∧
        (⟨.finish_soft, (sampleTask .in_progress 20 5 (some 10)).id⟩ :
          WarningModel) ∈ ws)) ∧
    get_warnings_list (1/2) 16 (sampleTask .in_progress 20 5 (some 10)) =
      some [] :=
  ⟨finish_warnings_characterization (1/2) 16
    (sampleTask .in_progress 20 5 (some 10)) 10 rfl rfl,
   by norm_num [get_warnings_list, status_warnings, dateSubDays,
     sampleTask]⟩

/-- C10: for every task whose branch precondition holds (an
`in_progress` task has its actual start date), the warning computation
returns at most two warnings — at most one status-conditioned warning
and at most one `late_deadline` — and every warning in the result
carries the input task's id. -/
theorem get_warnings_list_shape (coef : ℚ) (current_date : ℤ)
    (task : Task)
    (hwf : task.status = .in_progress → task.actual_start_date ≠ none) :
    ∃ ws, get_warnings_list coef current_date task = some ws ∧
      ws.length ≤ 2 ∧
      ws.countP (fun w => statusConditioned w.type) ≤ 1 ∧
      ws.countP (fun w => w.type = WarningTypeEnum.late_deadline) ≤ 1 ∧
      ∀ w ∈ ws, w.task_id = task.id := by
  have hsw : ∃ sw, status_warnings coef current_date task = some sw ∧
      sw.length ≤ 1 ∧
      sw.countP (fun w => w.type = WarningTypeEnum.late_deadline) = 0 ∧
      ∀ w ∈ sw, w.task_id = task.id := by
    cases hst : task.status with
    | to_do =>
        refine ⟨_, status_warnings_to_do coef current_date task hst, ?_⟩
        split_ifs <;> simp_all
    | in_progress =>
        obtain ⟨s, hs⟩ := Option.ne_none_iff_exists'.mp (hwf hst)
        refine ⟨_,
          status_warnings_in_progress coef current_date task s hst hs, ?_⟩
        split_ifs <;> simp_all
    | done =>
        exact ⟨[], status_warnings_done coef current_date task hst,
          by simp⟩
  obtain ⟨sw, hsw_eq, hlen, hlate, hid⟩ := hsw
  refine ⟨_,
    get_warnings_list_eq_append coef current_date task sw hsw_eq,
    ?_, ?_, ?_, ?_⟩
  · rw [List.length_append]
    split_ifs <;> simp <;> omega
  · rw [List.countP_append]
    have h1 : sw.countP (fun w => statusConditioned w.type) ≤ sw.length :=
      List.countP_le_length _
    have h2 : (if current_date > task.deadline then
        [(⟨.late_deadline, task.id⟩ : WarningModel)] else []).countP
        (fun w => statusConditioned w.type) = 0 := by
      split_ifs <;> simp [statusConditioned]
    omega
  · rw [List.countP_append, hlate]
    split_ifs <;> simp
  · intro w hw
    rcases List.mem_append.mp hw with h1 | h2
    · exact hid w h1
    · split_ifs at h2 <;> simp_all

/-- Witness for C10 at a concrete overdue `to_do` task (which realizes
the maximal shape: one status warning plus one `late_deadline`). -/
theorem get_warnings_list_shape_witness :
    ∃ ws, get_warnings_list (1/2) 12 (sampleTask .to_do 10 5 none) =
        some ws ∧
      ws.length ≤ 2 ∧
      ws.countP (fun w => statusConditioned w.type) ≤ 1 ∧
      ws.countP (fun w => w.type = WarningTypeEnum.late_deadline) ≤ 1 ∧
      ∀ w ∈ ws, w.task_id = (sampleTask .to_do 10 5 none).id :=
  get_warnings_list_shape (1/2) 12 (sampleTask .to_do 10 5 none)
    (fun h => absurd h (by decide))

/-- C5: after every call of the actual-dates update on an existing task,
the resulting record satisfies the inclusive-day-count invariant: if both
actual dates are set, `actual_completion_days` is
`(finish − start) + 1`; if either is unset, it is unset. -/
theorem update_task_start_finish_dates_invariant (store : List Task)
    (task_id : ℤ) (new_start_date new_finish_date : Option ℤ) (t : Task)
    (hmem : t ∈ (update_task_start_finish_dates store task_id
      new_start_date new_finish_date).2)
    (hid : t.id = task_id) :
    (∀ s f, t.actual_start_date = some s → t.actual_finish_date = some f →
      t.actual_completion_days = some (f - s + 1)) ∧
    ((t.actual_start_date = none ∨ t.actual_finish_date = none) →
      t.actual_completion_days = none) := by
  unfold update_task_start_finish_dates at hmem
  simp only [List.mem_map] at hmem
  obtain ⟨u, hu, heq⟩ := hmem
  by_cases hcase : u.id = task_id
  · rw [if_pos hcase] at heq
    subst heq
    cases new_start_date <;> cases new_finish_date <;> simp_all
  · rw [if_neg hcase] at heq
    subst heq
    exact absurd hid hcase

/-- Witness for C5: updating the single-task store with both dates set
(days 3 and 7, giving 5 inclusive days), checked through the theorem on
the explicit resulting record. -/
theorem update_task_start_finish_dates_invariant_witness :
    (∀ s f,
      (⟨1, 7, .done, none, none, 30, 10, some 3, some 7, some 5, false,
        0⟩ : Task).actual_start_date = some s →
      (⟨1, 7, .done, none, none, 30, 10, some 3, some 7, some 5, false,
        0⟩ : Task).actual_finish_date = some f →
      (⟨1, 7, .done, none, none, 30, 10, some 3, some 7, some 5, false,
        0⟩ : Task).actual_completion_days = some (f - s + 1)) ∧
    (((⟨1, 7, .done, none, none, 30, 10, some 3, some 7, some 5, false,
        0⟩ : Task).actual_start_date = none ∨
      (⟨1, 7, .done, none, none, 30, 10, some 3, some 7, some 5, false,
        0⟩ : Task).actual_finish_date = none) →
      (⟨1, 7, .done, none, none, 30, 10, some 3, some 7, some 5, false,
        0⟩ : Task).actual_completion_days = none) :=
  update_task_start_finish_dates_invariant
    [sampleTask .done 30 10 none] 1 (some 3) (some 7)
    ⟨1, 7, .done, none, none, 30, 10, some 3, some 7, some 5, false, 0⟩
    (by decide) rfl

/-- C6: `add_task_depends` is idempotent: the resulting edge set is the
input with exactly the pair `(task_id, depends_on_id)` adjoined; adding
an already-present edge is a no-op that leaves the edge set (and its
cardinality) unchanged, while adding an absent edge grows the
cardinality by exactly one. -/
theorem add_task_depends_idempotent (edges : Finset (ℤ × ℤ))
    (id_ depends_id : ℤ) :
    (∀ e, e ∈ add_task_depends edges id_ depends_id ↔
      e = (id_, depends_id) ∨ e ∈ edges) ∧
    ((id_, depends_id) ∈ edges →
      add_task_depends edges id_ depends_id = edges) ∧
    ((id_, depends_id) ∈ edges →
      (add_task_depends edges id_ depends_id).card = edges.card) ∧
    ((id_, depends_id) ∉ edges →
      (add_task_depends edges id_ depends_id).card = edges.card + 1) := by
  refine ⟨fun e => Finset.mem_insert, fun h => ?_, fun h => ?_,
    fun h => Finset.card_insert_of_not_mem h⟩
  · exact Finset.insert_eq_self.mpr h
  · unfold add_task_depends
    rw [Finset.insert_eq_self.mpr h]

/-- Witness for C6: re-adding the present edge (1, 2) leaves the
singleton edge set unchanged; adding the absent edge (3, 4) grows the
cardinality to two. -/
theorem add_task_depends_idempotent_witness :
    add_task_depends {((1 : ℤ), (2 : ℤ))} 1 2 = {((1 : ℤ), (2 : ℤ))} ∧
    (add_task_depends {((1 : ℤ), (2 : ℤ))} 1 2).card =
      ({((1 : ℤ), (2 : ℤ))} : Finset (ℤ × ℤ)).card ∧
    (add_task_depends {((1 : ℤ), (2 : ℤ))} 3 4).card =
      ({((1 : ℤ), (2 : ℤ))} : Finset (ℤ × ℤ)).card + 1 :=
  ⟨(add_task_depends_idempotent {((1 : ℤ), (2 : ℤ))} 1 2).2.1
      (by decide),
   (add_task_depends_idempotent {((1 : ℤ), (2 : ℤ))} 1 2).2.2.1
      (by decide),
   (add_task_depends_idempotent {((1 : ℤ), (2 : ℤ))} 3 4).2.2.2
      (by decide)⟩

/-- C7: `del_tasks_depends` returns whether an edge was actually
removed: deleting a present edge returns `true` and removes exactly that
edge; deleting an absent edge returns `false` and leaves the edge set
unchanged. -/
theorem del_tasks_depends_reports_removal (edges : Finset (ℤ × ℤ))
    (id_ depends_id : ℤ) :
    ((id_, depends_id) ∈ edges →
      (del_tasks_depends edges id_ depends_id).1 = true ∧
      ∀ e, e ∈ (del_tasks_depends edges id_ depends_id).2 ↔
        e ∈ edges ∧ e ≠ (id_, depends_id)) ∧
    ((id_, depends_id) ∉ edges →
      (del_tasks_depends edges id_ depends_id).1 = false ∧
      (del_tasks_depends edges id_ depends_id).2 = edges) := by
  constructor
  · intro h
    refine ⟨by simp [del_tasks_depends, h], fun e => ?_⟩
    rw [del_tasks_depends]
    simp only [Finset.mem_erase]
    tauto
  · intro h
    exact ⟨by simp [del_tasks_depends, h],
      by simp [del_tasks_depends, Finset.erase_eq_of_not_mem h]⟩

/-- Witness for C7: removing the present edge (1, 2) from the singleton
edge set returns `true` (and (1, 2) is gone); removing the absent edge
(3, 4) returns `false` and leaves the set unchanged. -/
theorem del_tasks_depends_reports_removal_witness :
    ((del_tasks_depends {((1 : ℤ), (2 : ℤ))} 1 2).1 = true ∧
      ∀ e, e ∈ (del_tasks_depends {((1 : ℤ), (2 : ℤ))} 1 2).2 ↔
        e ∈ ({((1 : ℤ), (2 : ℤ))} : Finset (ℤ × ℤ)) ∧
          e ≠ ((1 : ℤ), (2 : ℤ))) ∧
    ((del_tasks_depends {((1 : ℤ), (2 : ℤ))} 3 4).1 = false ∧
      (del_tasks_depends {((1 : ℤ), (2 : ℤ))} 3 4).2 =
        {((1 : ℤ), (2 : ℤ))}) :=
  ⟨(del_tasks_depends_reports_removal {((1 : ℤ), (2 : ℤ))} 1 2).1
      (by decide),
   (del_tasks_depends_reports_removal {((1 : ℤ), (2 : ℤ))} 3 4).2
      (by decide)⟩

/-- C1 counterexample: on the empty task list, and on a non-empty task
list with no `done` task, the dashboard progress computation faults (a
`KeyError` on the missing `done` key of the `statuses` dict, resp. the
same `KeyError`/`ZeroDivisionError`, modelled by `none`): it does not
return the value `0` that the claim requires. -/
theorem dashboard_progress_fault_counterexample :
    dashboard_progress [] = none ∧
    dashboard_progress [] ≠ some 0 ∧
    dashboard_progress [sampleTask .to_do 30 10 none] = none ∧
    dashboard_progress [sampleTask .to_do 30 10 none] ≠ some 0 := by
  refine ⟨rfl, ?_, by decide, ?_⟩ <;> decide

/-- The nearest-even integer rounding is within half of its input. -/
theorem abs_rne_sub_le (m : ℚ) : |(rne m : ℚ) - m| ≤ 1/2 := by
  have h0 := Int.fract_nonneg m
  have h1 := Int.fract_lt_one m
  have hf : Int.fract m = m - ⌊m⌋ := rfl
  unfold rne
  split_ifs with hc1 hc2 hc3 <;> rw [abs_le] <;> push_cast <;>
    constructor <;> linarith [hc1, h0, h1]

/-- `rne` of an integer is that integer. -/
theorem rne_intCast (k : ℤ) : rne ((k : ℚ)) = k := by
  unfold rne
  rw [Int.fract_intCast, Int.floor_intCast]
  norm_num

/-- Evaluation rule for `round64` given the binary exponent of its
positive input. -/
theorem round64_eval (x : ℚ) (e : ℤ) (hemin : -1022 ≤ e)
    (h1 : 2 ^ e ≤ x) (h2 : x < 2 ^ (e + 1)) :
    round64 x = rne (x / 2 ^ (e - 52)) * 2 ^ (e - 52) := by
  have hx0 : 0 < x := lt_of_lt_of_le (by positivity) h1
  have hlog : Int.log 2 x = e := by
    have hle : e ≤ Int.log 2 x := by
      rw [← Int.zpow_le_iff_le_log (by norm_num) hx0]
      exact_mod_cast h1
    have hlt : Int.log 2 x < e + 1 := by
      rw [← Int.lt_zpow_iff_log_lt (by norm_num) hx0]
      exact_mod_cast h2
    omega
  unfold round64
  rw [if_neg (not_le.mpr hx0), hlog, max_eq_left hemin]

/-- For inputs at or above the smallest normal binary64 magnitude, the
rounding error of `round64` is within one part in `2 ^ 53`. -/
theorem abs_round64_sub_le (x : ℚ) (hx : 1/2^1022 ≤ x) :
    |round64 x - x| ≤ x / 2^53 := by
  have hx0 : 0 < x := lt_of_lt_of_le (by positivity) hx
  have hlog_ge : (-1022 : ℤ) ≤ Int.log 2 x := by
    rw [← Int.zpow_le_iff_le_log (by norm_num) hx0]
    have : ((2:ℕ):ℚ) ^ (-1022 : ℤ) = 1/2^1022 := by norm_num
    rw [this]
    exact hx
  have h2e : (2:ℚ) ^ (Int.log 2 x) ≤ x := by
    have := Int.zpow_log_le_self (b := 2) (R := ℚ) (by norm_num) hx0
    exact_mod_cast this
  have hs0 : (0:ℚ) < 2 ^ (Int.log 2 x - 52) := by positivity
  have herr := abs_rne_sub_le (x / 2 ^ (Int.log 2 x - 52))
  unfold round64
  rw [if_neg (not_le.mpr hx0), max_eq_left hlog_ge]
  have hexp : (rne (x / 2 ^ (Int.log 2 x - 52)) : ℚ) * 2 ^ (Int.log 2 x - 52)
      - x =
      ((rne (x / 2 ^ (Int.log 2 x - 52)) : ℚ) - x / 2 ^ (Int.log 2 x - 52)) *
        2 ^ (Int.log 2 x - 52) := by
    field_simp
  rw [hexp, abs_mul, abs_of_pos hs0]
  have hstep : |(rne (x / 2 ^ (Int.log 2 x - 52)) : ℚ) -
      x / 2 ^ (Int.log 2 x - 52)| * 2 ^ (Int.log 2 x - 52) ≤
      (1/2) * 2 ^ (Int.log 2 x - 52) := by
    exact mul_le_mul_of_nonneg_right herr (le_of_lt hs0)
  refine le_trans hstep ?_
  have hhalf : (1/2 : ℚ) * 2 ^ (Int.log 2 x - 52) = 2 ^ (Int.log 2 x - 53) := by
    rw [show Int.log 2 x - 52 = (Int.log 2 x - 53) + 1 by ring, zpow_add_one₀ (by norm_num)]
    ring
  rw [hhalf, show Int.log 2 x - 53 = Int.log 2 x + (-53) by ring,
    zpow_add₀ (by norm_num : (2:ℚ) ≠ 0)]
  have : (2:ℚ) ^ (-53 : ℤ) = 1/2^53 := by norm_num
  rw [this]
  calc (2:ℚ) ^ Int.log 2 x * (1/2^53) ≤ x * (1/2^53) := by
        exact mul_le_mul_of_nonneg_right h2e (by positivity)
    _ = x / 2^53 := by ring

/-- An integer divided by a positive natural is either exactly its floor
or at least `1/n` away from each neighbouring integer. -/
theorem intCast_div_natCast_floor_cases (a : ℤ) (n : ℕ) (hn : 0 < n) :
    (a : ℚ) / n = ⌊(a : ℚ) / n⌋ ∨
    ((⌊(a : ℚ) / n⌋ : ℚ) + 1 / n ≤ (a : ℚ) / n ∧
      (a : ℚ) / n + 1 / n ≤ (⌊(a : ℚ) / n⌋ : ℚ) + 1) := by
  have hnQ : (0:ℚ) < n := by exact_mod_cast hn
  have hnZ : (0:ℤ) < n := by exact_mod_cast hn
  rw [Rat.floor_intCast_div_natCast]
  have hdiv : (n:ℤ) * (a / n) + a % n = a := Int.ediv_add_emod a n
  have hr0 : 0 ≤ a % (n:ℤ) := Int.emod_nonneg a (by omega)
  have hrlt : a % (n:ℤ) < n := Int.emod_lt_of_pos a hnZ
  have hq : ((n:ℚ)) * ((a / (n:ℤ) : ℤ) : ℚ) + ((a % (n:ℤ) : ℤ) : ℚ) = (a:ℚ) := by
    exact_mod_cast congrArg (fun z : ℤ => (z : ℚ)) hdiv
  have hkey : (a : ℚ) / n = ((a / (n:ℤ) : ℤ) : ℚ) + ((a % (n:ℤ) : ℤ) : ℚ) / n := by
    rw [← hq]
    field_simp
    ring
  by_cases hz : a % (n:ℤ) = 0
  · left
    rw [hkey, hz]
    push_cast
    ring
  · right
    have hr1 : (1:ℤ) ≤ a % (n:ℤ) := by omega
    have hr1Q : (1:ℚ) ≤ ((a % (n:ℤ) : ℤ) : ℚ) := by exact_mod_cast hr1
    have hrltQ : ((a % (n:ℤ) : ℤ) : ℚ) + 1 ≤ (n:ℚ) := by
      have : a % (n:ℤ) + 1 ≤ (n:ℤ) := by omega
      exact_mod_cast this
    constructor
    · rw [hkey]
      have : (1:ℚ) / n ≤ ((a % (n:ℤ) : ℤ) : ℚ) / n := by
        gcongr
      linarith
    · rw [hkey]
      have : ((a % (n:ℤ) : ℤ) : ℚ) / n + 1 / n ≤ 1 := by
        rw [div_add_div_same, div_le_one hnQ]
        exact hrltQ
      linarith

/-- C1 (amended): for every task list of at most `2 ^ 32` tasks with at
least one `done` task, the dashboard progress is `⌊done / total × 100⌋`
or exactly one below it, and it equals the floor whenever `100 × done`
is not a multiple of the task count — the one-below case is a binary64
rounding artefact possible only when the exact percentage is an integer
(e.g. 29 done of 50 yields 57, not 58). -/
theorem dashboard_progress_near_floor (tasks : List Task)
    (h : ∃ t ∈ tasks, t.status = TaskStatusEnum.done)
    (hlen : tasks.length ≤ 2 ^ 32) :
    ∃ p : ℕ, dashboard_progress tasks = some p ∧
      ((p : ℤ) =
          ⌊((tasks.countP (fun t => t.status = TaskStatusEnum.done) : ℚ) /
            (tasks.length : ℚ)) * 100⌋ ∨
        (p : ℤ) =
          ⌊((tasks.countP (fun t => t.status = TaskStatusEnum.done) : ℚ) /
            (tasks.length : ℚ)) * 100⌋ - 1) ∧
      (¬ tasks.length ∣
          100 * tasks.countP (fun t => t.status = TaskStatusEnum.done) →
        (p : ℤ) =
          ⌊((tasks.countP (fun t => t.status = TaskStatusEnum.done) : ℚ) /
            (tasks.length : ℚ)) * 100⌋) := by
  obtain ⟨t, ht, hdone⟩ := h
  have hany : tasks.any
      (fun t => decide (t.status = TaskStatusEnum.done)) = true := by
    simp only [List.any_eq_true, decide_eq_true_eq]
    exact ⟨t, ht, hdone⟩
  set d : ℕ := tasks.countP (fun t => t.status = TaskStatusEnum.done)
    with hd
  set n : ℕ := tasks.length with hn
  have hd1 : 0 < d := by
    rw [hd]
    exact List.countP_pos_iff.mpr ⟨t, ht, by simp [hdone]⟩
  have hdn : d ≤ n := List.countP_le_length _
  have hn1 : 0 < n := lt_of_lt_of_le hd1 hdn
  have hnQ : (0:ℚ) < n := by exact_mod_cast hn1
  have hdQ : (1:ℚ) ≤ d := by exact_mod_cast hd1
  set q : ℚ := (d:ℚ)/(n:ℚ) with hq
  have hq0 : 0 < q := div_pos (by exact_mod_cast hd1) hnQ
  have hq1 : q ≤ 1 := by
    rw [hq, div_le_one hnQ]
    exact_mod_cast hdn
  have h1n32 : (1:ℚ)/2^32 ≤ 1/n := by
    apply one_div_le_one_div_of_le hnQ
    exact_mod_cast hlen
  have hqge : (1:ℚ)/2^32 ≤ q := by
    have h1n : (1:ℚ)/n ≤ q := by
      rw [hq]
      gcongr
    linarith
  have hqlow : (1:ℚ)/2^1022 ≤ q := by
    have : (1:ℚ)/2^1022 ≤ 1/2^32 := by norm_num
    linarith
  have herr1 := abs_le.mp (abs_round64_sub_le q hqlow)
  set qh : ℚ := round64 q with hqh
  have hq53 : q/2^53 ≤ q/2 := by
    rw [div_eq_mul_inv q (2^53 : ℚ), div_eq_mul_inv q 2]
    apply mul_le_mul_of_nonneg_left _ (le_of_lt hq0)
    norm_num
  have hqh_ge : q/2 ≤ qh := by linarith [herr1.1]
  have hqhpos : 0 < qh := by linarith [hq0]
  set v : ℚ := qh * 100 with hv
  have hvlow : (1:ℚ)/2^1022 ≤ v := by
    have h1 : (1:ℚ)/2^33 ≤ qh := by
      have : (1:ℚ)/2^33 ≤ q/2 := by linarith [hqge]
      linarith
    have h2 : (100:ℚ)/2^33 ≤ v := by
      rw [hv]
      linarith
    have h3 : (1:ℚ)/2^1022 ≤ 100/2^33 := by norm_num
    linarith
  have herr2 := abs_le.mp (abs_round64_sub_le v hvlow)
  set ph : ℚ := round64 v with hph
  have hE_ub : 100*q ≤ 100 := by linarith
  have habs : |ph - 100*q| ≤ (1:ℚ)/2^44 := by
    have h2 : |v - 100*q| ≤ (100*q)/2^53 := by
      have he : v - 100*q = (qh - q)*100 := by rw [hv]; ring
      rw [he, abs_mul, abs_of_nonneg (by norm_num : (0:ℚ) ≤ 100)]
      have habs1 : |qh - q| ≤ q/2^53 := abs_le.mpr herr1
      linarith
    have hv_ub2 : v ≤ 2*(100*q) := by
      have hv1 : v ≤ 100*q + (100*q)/2^53 := by
        rw [hv]
        linarith [herr1.2]
      linarith [hq0]
    have htri : |ph - 100*q| ≤ |ph - v| + |v - 100*q| := abs_sub_le ph v (100*q)
    have h1 : |ph - v| ≤ v/2^53 := abs_le.mpr herr2
    have hv53 : v/2^53 ≤ 2*(100*q)/2^53 := by
      gcongr
    have hsum : |ph - 100*q| ≤ 3*(100*q)/2^53 := by
      calc |ph - 100*q| ≤ |ph - v| + |v - 100*q| := htri
        _ ≤ v/2^53 + (100*q)/2^53 := add_le_add h1 h2
        _ ≤ 2*(100*q)/2^53 + (100*q)/2^53 := by linarith [hv53]
        _ = 3*(100*q)/2^53 := by ring
    calc |ph - 100*q| ≤ 3*(100*q)/2^53 := hsum
      _ ≤ 3*100/2^53 := by gcongr
      _ ≤ 1/2^44 := by norm_num
  have habs' := abs_le.mp habs
  have hph0 : 0 ≤ ph := by
    have h1 : (100:ℚ)/2^32 ≤ 100*q := by linarith [hqge]
    have h2 : (0:ℚ) ≤ 100/2^32 - 1/2^44 := by norm_num
    linarith [habs'.1]
  have hmain : dashboard_progress tasks = some ⌊ph⌋₊ := by
    unfold dashboard_progress
    rw [if_pos hany, ← hd, ← hn, ← hq, ← hqh, ← hv, ← hph]
  have hbridge : ((⌊ph⌋₊ : ℕ) : ℤ) = ⌊ph⌋ := Int.natCast_floor_eq_floor hph0
  have hset : ((100*(d:ℤ) : ℤ) : ℚ)/(n:ℚ) = q*100 := by
    rw [hq]
    push_cast
    ring
  have hcases := intCast_div_natCast_floor_cases (100*(d:ℤ)) n hn1
  rw [hset] at hcases
  have hδn : (1:ℚ)/2^44 < 1/n := by
    have : (1:ℚ)/2^44 < 1/2^32 := by norm_num
    linarith
  refine ⟨⌊ph⌋₊, hmain, ?_, ?_⟩
  · rw [hbridge]
    rcases hcases with hcase | hcase
    · have hup : ⌊ph⌋ < ⌊q*100⌋ + 1 := by
        rw [Int.floor_lt]
        push_cast
        linarith [habs'.2]
      have hdown : ⌊q*100⌋ - 1 ≤ ⌊ph⌋ := by
        rw [Int.le_floor]
        push_cast
        linarith [habs'.1]
      omega
    · have hup : ⌊ph⌋ < ⌊q*100⌋ + 1 := by
        rw [Int.floor_lt]
        push_cast
        linarith [habs'.2, hcase.2]
      have hdown : ⌊q*100⌋ ≤ ⌊ph⌋ := by
        rw [Int.le_floor]
        linarith [habs'.1, hcase.1]
      omega
  · intro hndvd
    rw [hbridge]
    rcases hcases with hcase | hcase
    · exfalso
      apply hndvd
      have h1 : ((100*(d:ℤ) : ℤ) : ℚ)/(n:ℚ) = (⌊q*100⌋ : ℚ) := by
        rw [hset]
        exact hcase
      rw [div_eq_iff hnQ.ne'] at h1
      have hZ : (100*(d:ℤ) : ℤ) = ⌊q*100⌋ * n := by exact_mod_cast h1
      have : ((n:ℤ)) ∣ (100*(d:ℤ)) := ⟨⌊q*100⌋, by rw [hZ]; ring⟩
      exact_mod_cast this
    · have hup : ⌊ph⌋ < ⌊q*100⌋ + 1 := by
        rw [Int.floor_lt]
        push_cast
        linarith [habs'.2, hcase.2]
      have hdown : ⌊q*100⌋ ≤ ⌊ph⌋ := by
        rw [Int.le_floor]
        linarith [habs'.1, hcase.1]
      omega

/-- `1/4` is exactly representable in binary64, so `round64` fixes it. -/
theorem round64_one_quarter : round64 ((1:ℚ)/4) = 1/4 := by
  rw [round64_eval ((1:ℚ)/4) (-2) (by norm_num) (by norm_num) (by norm_num)]
  have hm : ((1:ℚ)/4) / 2^((-2:ℤ) - 52) = ((2^52 : ℤ) : ℚ) := by
    push_cast
    norm_num
  rw [hm, rne_intCast]
  push_cast
  norm_num

/-- `25` is exactly representable in binary64, so `round64` fixes it. -/
theorem round64_twentyfive : round64 (25:ℚ) = 25 := by
  rw [round64_eval (25:ℚ) 4 (by norm_num) (by norm_num) (by norm_num)]
  have hm : (25:ℚ) / 2^((4:ℤ) - 52) = ((25*2^48 : ℤ) : ℚ) := by
    push_cast
    norm_num
  rw [hm, rne_intCast]
  push_cast
  norm_num

/-- `29/50` is not representable in binary64: it rounds down to the
double `5224175567749775 × 2^(-53)` (the value Python stores for
`29 / 50`). -/
theorem round64_29_50 : round64 ((29:ℚ)/50) = 5224175567749775 / 2^53 := by
  rw [round64_eval ((29:ℚ)/50) (-1) (by norm_num) (by norm_num) (by norm_num)]
  have hm : ((29:ℚ)/50) / 2^((-1:ℤ) - 52) = 130604389193744384/25 := by
    norm_num
  have hfl : ⌊(130604389193744384/25 : ℚ)⌋ = 5224175567749775 := by
    rw [Int.floor_eq_iff]
    constructor <;> norm_num
  have hfr : Int.fract (130604389193744384/25 : ℚ) = 9/25 := by
    rw [Int.fract, hfl]
    norm_num
  rw [hm]
  unfold rne
  rw [hfr, hfl]
  norm_num

/-- Multiplying the stored double for `29/50` by `100` rounds down
again, to `8162774324609023 × 2^(-47) ≈ 57.99999999999999`. -/
theorem round64_29_50_mul100 :
    round64 (5224175567749775 / 2^53 * 100 : ℚ) =
      8162774324609023 / 2^47 := by
  rw [round64_eval (5224175567749775 / 2^53 * 100 : ℚ) 5 (by norm_num)
    (by norm_num) (by norm_num)]
  have hm : (5224175567749775 / 2^53 * 100 : ℚ) / 2^((5:ℤ) - 52) =
      130604389193744375/16 := by
    norm_num
  have hfl : ⌊(130604389193744375/16 : ℚ)⌋ = 8162774324609023 := by
    rw [Int.floor_eq_iff]
    constructor <;> norm_num
  have hfr : Int.fract (130604389193744375/16 : ℚ) = 7/16 := by
    rw [Int.fract, hfl]
    norm_num
  rw [hm]
  unfold rne
  rw [hfr, hfl]
  norm_num

/-- The dashboard progress of 4 tasks with 1 `done` is 25 (the float
pipeline is exact here). -/
theorem dashboard_progress_four_tasks :
    dashboard_progress [sampleTask .done 30 1 none,
      sampleTask .to_do 30 1 none, sampleTask .to_do 30 1 none,
      sampleTask .to_do 30 1 none] = some 25 := by
  unfold dashboard_progress
  rw [if_pos (by decide)]
  rw [show ([sampleTask .done 30 1 none, sampleTask .to_do 30 1 none,
      sampleTask .to_do 30 1 none, sampleTask .to_do 30 1 none].countP
        (fun t => t.status = TaskStatusEnum.done)) = 1 by decide]
  rw [show ([sampleTask .done 30 1 none, sampleTask .to_do 30 1 none,
      sampleTask .to_do 30 1 none,
      sampleTask .to_do 30 1 none] : List Task).length = 4 by decide]
  rw [show ((1:ℕ):ℚ)/((4:ℕ):ℚ) = (1:ℚ)/4 by norm_num, round64_one_quarter]
  rw [show ((1:ℚ)/4) * 100 = 25 by norm_num, round64_twentyfive]
  rw [show ((25:ℚ)) = ((25:ℕ):ℚ) by norm_num, Nat.floor_natCast]

/-- The dashboard progress of 50 tasks with 29 `done` is 57: binary64
rounding lands just below the exact percentage 58. -/
theorem dashboard_progress_29_of_50 :
    dashboard_progress (List.replicate 29 (sampleTask .done 30 1 none) ++
      List.replicate 21 (sampleTask .to_do 30 1 none)) = some 57 := by
  unfold dashboard_progress
  rw [if_pos (by decide)]
  rw [show ((List.replicate 29 (sampleTask .done 30 1 none) ++
      List.replicate 21 (sampleTask .to_do 30 1 none)).countP
        (fun t => t.status = TaskStatusEnum.done)) = 29 by decide]
  rw [show (List.replicate 29 (sampleTask .done 30 1 none) ++
      List.replicate 21 (sampleTask .to_do 30 1 none)).length = 50
    by decide]
  rw [show ((29:ℕ):ℚ)/((50:ℕ):ℚ) = (29:ℚ)/50 by norm_num, round64_29_50,
    round64_29_50_mul100]
  refine congrArg some ?_
  rw [Nat.floor_eq_iff (by positivity)]
  constructor <;> norm_num

/-- Witness for C1 (amended): the amended theorem applied to the spec's
4-tasks-1-done list, together with the concrete evaluations — 4 tasks
with 1 `done` give 25 (the exact floor), while 29 `done` of 50 give 57
although the exact floor is 58, the one-below binary64 rounding case. -/
theorem dashboard_progress_near_floor_witness :
    (∃ p : ℕ, dashboard_progress [sampleTask .done 30 1 none,
        sampleTask .to_do 30 1 none, sampleTask .to_do 30 1 none,
        sampleTask .to_do 30 1 none] = some p ∧
      ((p : ℤ) = 25 ∨ (p : ℤ) = 24)) ∧
    dashboard_progress [sampleTask .done 30 1 none,
      sampleTask .to_do 30 1 none, sampleTask .to_do 30 1 none,
      sampleTask .to_do 30 1 none] = some 25 ∧
    dashboard_progress (List.replicate 29 (sampleTask .done 30 1 none) ++
      List.replicate 21 (sampleTask .to_do 30 1 none)) = some 57 ∧
    ⌊((29:ℚ)/50) * 100⌋ = 58 := by
  refine ⟨?_, dashboard_progress_four_tasks, dashboard_progress_29_of_50,
    ?_⟩
  · obtain ⟨p, hp, hdisj, _⟩ := dashboard_progress_near_floor
      [sampleTask .done 30 1 none, sampleTask .to_do 30 1 none,
        sampleTask .to_do 30 1 none, sampleTask .to_do 30 1 none]
      ⟨sampleTask .done 30 1 none, by decide, rfl⟩ (by decide)
    refine ⟨p, hp, ?_⟩
    rw [show ([sampleTask .done 30 1 none, sampleTask .to_do 30 1 none,
        sampleTask .to_do 30 1 none, sampleTask .to_do 30 1 none].countP
          (fun t => t.status = TaskStatusEnum.done)) = 1 by decide,
      show (([sampleTask .done 30 1 none, sampleTask .to_do 30 1 none,
        sampleTask .to_do 30 1 none,
        sampleTask .to_do 30 1 none] : List Task).length) = 4 by decide]
      at hdisj
    rw [show ⌊(((1:ℕ):ℚ) / ((4:ℕ):ℚ)) * 100⌋ = 25 by
        rw [Int.floor_eq_iff]
        constructor <;> norm_num]
      at hdisj
    omega
  · rw [Int.floor_eq_iff]
    constructor <;> norm_num

/-- Sorting the dependency rows by deadline with `mergeSort` yields a
list that is pairwise ordered by deadline. -/
theorem mergeSort_deadline_sorted (L : List TaskWithDependency) :
    (L.mergeSort (fun r₁ r₂ => r₁.deadline ≤ r₂.deadline)).Pairwise
      (fun r₁ r₂ => r₁.deadline ≤ r₂.deadline) := by
  have h := @List.sorted_mergeSort TaskWithDependency
    (fun r₁ r₂ => decide (r₁.deadline ≤ r₂.deadline))
    (fun a b c h₁ h₂ => by
      simp only [decide_eq_true_eq] at h₁ h₂ ⊢
      omega)
    (fun a b => by
      simp only [Bool.or_eq_true, decide_eq_true_eq]
      exact Int.le_total a.deadline b.deadline)
    L
  exact h.imp (by simp)

/-- In a task table with no duplicate ids, filtering on the id of a
member yields exactly that member. -/
theorem filter_id_eq_singleton (tasks : List Task) (t : Task)
    (hnodup : (tasks.map Task.id).Nodup) (hmem : t ∈ tasks) :
    tasks.filter (fun u => u.id = t.id) = [t] := by
  induction tasks with
  | nil => cases hmem
  | cons u us ih =>
    rw [List.map_cons, List.nodup_cons] at hnodup
    rcases List.mem_cons.mp hmem with rfl | hmem'
    · rw [List.filter_cons_of_pos (by simp)]
      have hnil : us.filter (fun u' => u'.id = t.id) = [] := by
        rw [List.filter_eq_nil_iff]
        intro a ha
        simp only [decide_eq_true_eq]
        intro haid
        exact hnodup.1 (haid ▸ List.mem_map_of_mem Task.id ha)
      rw [hnil]
    · have hne : ¬(u.id = t.id) := by
        intro h
        exact hnodup.1 (h ▸ List.mem_map_of_mem Task.id hmem')
      rw [List.filter_cons_of_neg (by simp [hne])]
      exact ih hnodup.2 hmem'

/-- C8: for every task present in a duplicate-free task table, the
all-relations view contains the task itself exactly once under category
`self`, and the whole result (self plus both dependency directions) is
sorted by deadline ascending. -/
theorem get_all_task_dependencies_self_once_sorted (tasks : List Task)
    (edges : Finset (ℤ × ℤ)) (t : Task)
    (hnodup : (tasks.map Task.id).Nodup) (hmem : t ∈ tasks) :
    (get_all_task_dependencies tasks edges t.id).countP
        (fun r => r.dependency_type = DependencyTypeEnum.self) = 1 ∧
    mkDependencyRow .self t ∈
      get_all_task_dependencies tasks edges t.id ∧
    (get_all_task_dependencies tasks edges t.id).Pairwise
      (fun r₁ r₂ => r₁.deadline ≤ r₂.deadline) := by
  have hfilter := filter_id_eq_singleton tasks t hnodup hmem
  unfold get_all_task_dependencies
  rw [hfilter]
  simp only [List.map_cons, List.map_nil]
  set r0 : TaskWithDependency := mkDependencyRow .self t with hr0
  set L : List TaskWithDependency :=
    (tasks.filter (fun u => (u.id, t.id) ∈ edges)).map
        (mkDependencyRow .depends_of) ++
      (tasks.filter (fun u => (t.id, u.id) ∈ edges)).map
        (mkDependencyRow .dependent_for) ++ [r0] with hL
  have hmemL : r0 ∈ L := by
    simp [hL]
  have hmemD : r0 ∈ L.dedup := List.mem_dedup.mpr hmemL
  have htype : ∀ r ∈ L, r.dependency_type = DependencyTypeEnum.self →
      r = r0 := by
    intro r hr hrt
    rw [hL] at hr
    rcases List.mem_append.mp hr with hr' | hr'
    · rcases List.mem_append.mp hr' with hr'' | hr''
      · obtain ⟨u, _, rfl⟩ := List.mem_map.mp hr''
        simp [mkDependencyRow] at hrt
      · obtain ⟨u, _, rfl⟩ := List.mem_map.mp hr''
        simp [mkDependencyRow] at hrt
    · simpa using hr'
  have hcount : L.dedup.countP
      (fun r => r.dependency_type = DependencyTypeEnum.self) = 1 := by
    have hcongr : L.dedup.countP
        (fun r => r.dependency_type = DependencyTypeEnum.self) =
        L.dedup.countP (fun r => r == r0) := by
      apply List.countP_congr
      intro r hr
      simp only [decide_eq_true_eq, beq_iff_eq]
      constructor
      · exact htype r (List.mem_dedup.mp hr)
      · rintro rfl
        simp [hr0, mkDependencyRow]
    rw [hcongr, ← List.count_eq_countP]
    exact List.count_eq_one_of_mem (List.nodup_dedup L) hmemD
  have hperm := List.mergeSort_perm L.dedup
    (fun r₁ r₂ => r₁.deadline ≤ r₂.deadline)
  refine ⟨?_, ?_, ?_⟩
  · rw [hperm.countP_eq]
    exact hcount
  · exact List.mem_mergeSort.mpr hmemD
  · exact mergeSort_deadline_sorted _

/-- Witness for C8: a two-task table with the single dependency edge
(2, 1); the all-relations view of task 1 contains task 2 (tagged
`depends_of` by the query) and task 1 itself exactly once under `self`,
sorted by deadline ascending. -/
theorem get_all_task_dependencies_self_once_sorted_witness :
    (get_all_task_dependencies
        [sampleTask .to_do 30 10 none,
         ⟨2, 7, .to_do, none, none, 20, 5, none, none, none, false, 0⟩]
        {((2 : ℤ), (1 : ℤ))} (sampleTask .to_do 30 10 none).id).countP
        (fun r => r.dependency_type = DependencyTypeEnum.self) = 1 ∧
    mkDependencyRow .self (sampleTask .to_do 30 10 none) ∈
      get_all_task_dependencies
        [sampleTask .to_do 30 10 none,
         ⟨2, 7, .to_do, none, none, 20, 5, none, none, none, false, 0⟩]
        {((2 : ℤ), (1 : ℤ))} (sampleTask .to_do 30 10 none).id ∧
    (get_all_task_dependencies
        [sampleTask .to_do 30 10 none,
         ⟨2, 7, .to_do, none, none, 20, 5, none, none, none, false, 0⟩]
        {((2 : ℤ), (1 : ℤ))} (sampleTask .to_do 30 10 none).id).Pairwise
      (fun r₁ r₂ => r₁.deadline ≤ r₂.deadline) :=
  get_all_task_dependencies_self_once_sorted
    [sampleTask .to_do 30 10 none,
     ⟨2, 7, .to_do, none, none, 20, 5, none, none, none, false, 0⟩]
    {((2 : ℤ), (1 : ℤ))} (sampleTask .to_do 30 10 none)
    (by decide) (by decide)

end BASED
